import Mathlib

/-!
Shallow embedding of the command-line selector mini-language of jcheck
(jcheck.go): the option-string parsers for the -meta / -rmeta, -sthumb,
-qu and -en flags, and the resolution / dispatch drivers that expand the
parsed selectors against a loaded document.  Option strings are modelled
as lists of characters; the external jpeg document model is represented
by oracle functions passed to the drivers.
-/

namespace JCheck

/-- Models the Go strconv helper lower(c) = c | 0x20 (ASCII case folding). -/
def lowerc (c : Char) : Char := Char.ofNat (c.toNat ||| 32)

/-- Split on a one-character separator, returning the first field and the
list of remaining fields.  This models Go strings.Split(s, sep), which for a
non-empty separator always returns at least one (possibly empty) field; the
pair shape records that guarantee structurally. -/
def splitSep1 (sep : Char) : List Char → List Char × List (List Char)
  | [] => ([], [])
  | c :: cs =>
    let p := splitSep1 sep cs
    if c = sep then ([], p.1 :: p.2) else (c :: p.1, p.2)

/-- Models Go strings.Split(s, sep) for a one-character separator. -/
def splitSep (sep : Char) (s : List Char) : List (List Char) :=
  (splitSep1 sep s).1 :: (splitSep1 sep s).2

/-- Scanning loop of Go strconv.underscoreOK: saw is the class of the last
character seen (as in the Go code: a caret at the beginning of the number,
a zero for a digit or base prefix, an underscore, or an exclamation mark
for anything else). -/
def uOKLoop (hex : Bool) : Char → List Char → Bool
  | saw, [] => saw != '_'
  | saw, c :: rest =>
    if ('0' ≤ c ∧ c ≤ '9') ∨ (hex ∧ 'a' ≤ lowerc c ∧ lowerc c ≤ 'f') then
      uOKLoop hex '0' rest
    else if c = '_' then
      if saw ≠ '0' then false else uOKLoop hex '_' rest
    else if saw = '_' then false
    else uOKLoop hex '!' rest

/-- Models Go strconv.underscoreOK, which checks that underscores in a
number literal only separate successive digits (or follow a base prefix). -/
def underscoreOK (s : List Char) : Bool :=
  let s1 := match s with
    | c :: rest => if c = '-' ∨ c = '+' then rest else c :: rest
    | [] => []
  match s1 with
  | c0 :: c1 :: rest =>
    if c0 = '0' ∧ (lowerc c1 = 'b' ∨ lowerc c1 = 'o' ∨ lowerc c1 = 'x') then
      uOKLoop (lowerc c1 = 'x') '0' rest
    else uOKLoop false '^' s1
  | _ => uOKLoop false '^' s1

/-- Digit classification of the Go strconv.ParseUint main loop; none for a
character that is neither a decimal digit nor a letter. -/
def digitVal (c : Char) : Option Nat :=
  if '0' ≤ c ∧ c ≤ '9' then some (c.toNat - '0'.toNat)
  else if 'a' ≤ lowerc c ∧ lowerc c ≤ 'z' then
    some ((lowerc c).toNat - 'a'.toNat + 10)
  else none

/-- Digit loop of Go strconv.ParseUint called with base argument 0 (so
underscores are skipped here and validated afterwards); the accumulator is
an unbounded Nat, the Bool records whether an underscore was seen.  The
Go loop detects overflow eagerly against a cutoff; the model checks the
final value against the 64-bit bound instead, which rejects exactly the
same strings (the accumulator only grows). -/
def puLoop (base : Nat) : List Char → Nat → Bool → Option (Nat × Bool)
  | [], n, u => some (n, u)
  | c :: rest, n, u =>
    if c = '_' then puLoop base rest n true
    else match digitVal c with
      | none => none
      | some d => if d ≥ base then none else puLoop base rest (n * base + d) u

/-- Models Go strconv.ParseUint(s, 0, 64): empty-string check, base
detection from the prefix, digit loop, underscore validation and 64-bit
range check.  none exactly when ParseUint reports an error. -/
def parseUint0 (s : List Char) : Option Nat :=
  match s with
  | [] => none
  | c0 :: rest0 =>
    let bp : Nat × List Char :=
      if c0 = '0' then
        match rest0 with
        | c1 :: rest1 =>
          if s.length ≥ 3 ∧ lowerc c1 = 'b' then (2, rest1)
          else if s.length ≥ 3 ∧ lowerc c1 = 'o' then (8, rest1)
          else if s.length ≥ 3 ∧ lowerc c1 = 'x' then (16, rest1)
          else (8, rest0)
        | [] => (8, [])
      else (10, s)
    match puLoop bp.1 bp.2 0 false with
    | none => none
    | some nu =>
      if nu.2 ∧ ¬ underscoreOK s then none
      else if nu.1 > 2 ^ 64 - 1 then none
      else some nu.1

/-- Models Go strconv.ParseInt(s, 0, 64) as used throughout jcheck: none
exactly when ParseInt reports an error (syntax, misplaced underscore, or
value out of the signed 64-bit range). -/
def parseInt0 (s : List Char) : Option Int :=
  match s with
  | [] => none
  | c :: rest =>
    let neg : Bool := c == '-'
    let body : List Char := if c = '-' ∨ c = '+' then rest else c :: rest
    match parseUint0 body with
    | none => none
    | some un =>
      if ¬ neg ∧ un ≥ 2 ^ 63 then none
      else if neg ∧ un > 2 ^ 63 then none
      else some (if neg then - (un : Int) else (un : Int))

/-- Models the jpeg.FormatMode enumeration (Standard / Extra / Both). -/
inductive FormatMode where
  | Standard
  | Extra
  | Both
deriving DecidableEq

/-- Error values produced by the parsers, one constructor per distinct
fmt.Errorf site in jcheck.go, each carrying the offending token or the
whole option value the Go message interpolates. -/
inductive Err where
  | invalidId (tok : List Char)                -- "invalid Id: %s" (parseMeta, parseSthumb)
  | missingPathOrId (part : List Char)         -- "Save Thumbnails: missing path or id: %s"
  | modeErr                                    -- getModePart "syntax error"
  | quModeErr (opt : List Char)                -- "Quantization table <syntax error>: -qu=%s"
  | quFormErr (opt : List Char)                -- "Quantization table syntax error: -qu=%s"
  | invalidQuDest (tok : List Char)            -- "invalid Quantization table destination: %s"
  | invalidQuFrame (tok : List Char)           -- "invalid Quantization table frame: %s"
  | enModeErr (opt : List Char)                -- "Entropy table <syntax error>: -en=%s"
  | enFormErr (opt : List Char)                -- "Entropy table syntax error: -en=%s"
  | invalidEnClass (tok : List Char)           -- "invalid Entropy table class: %s"
  | invalidEnDest (tok : List Char)            -- "invalid Entropy table destination: %s"
  | invalidEnFrame (tok : List Char)           -- "invalid Entropy table frame: %s"
  | enSpecificDestAllClasses                   -- "Unsupported case: specific destination for all classes"
  | enAllDestsSpecificClass                    -- "Unsupported case: all destinations for specific class"
deriving DecidableEq

instance {ε α : Type} [DecidableEq ε] [DecidableEq α] : DecidableEq (Except ε α) := fun a b =>
  match a, b with
  | .ok x, .ok y =>
    if h : x = y then .isTrue (by rw [h]) else .isFalse (fun hh => by cases hh; exact h rfl)
  | .error x, .error y =>
    if h : x = y then .isTrue (by rw [h]) else .isFalse (fun hh => by cases hh; exact h rfl)
  | .ok _, .error _ => .isFalse (fun hh => by cases hh)
  | .error _, .ok _ => .isFalse (fun hh => by cases hh)

/-- Models the metaIds record of jcheck.go (app segment id plus sub ids). -/
structure metaIds where
  appId : Int
  sIds : List Int
deriving DecidableEq

/-- Models the quTable record of jcheck.go. -/
structure quTable where
  dest : Int
  frame : Int
  mode : FormatMode
deriving DecidableEq

/-- Models the enTable record of jcheck.go; the Go field named class is
called cls here because class is a Lean keyword. -/
structure enTable where
  cls : Int
  dest : Int
  frame : Int
  mode : FormatMode
deriving DecidableEq

/-- Models the scTable record of jcheck.go. -/
structure scTable where
  index : Int
  frame : Int
  mode : FormatMode
deriving DecidableEq

/-- Models the jpeg.ThumbSpec record as used by parseSthumb (path, id). -/
structure ThumbSpec where
  Path : List Char
  ThId : Int
deriving DecidableEq

/-- Models getModePart of jcheck.go: reject the empty fragment, otherwise
look at the final character, consuming it when it selects a mode.
p.getLast? is none exactly when len(p) < 1. -/
def getModePart (p : List Char) : Except Err (FormatMode × List Char) :=
  match p.getLast? with
  | none => .error .modeErr
  | some c =>
    if c = 's' then .ok (.Standard, p.dropLast)
    else if c = 'x' then .ok (.Extra, p.dropLast)
    else if c = 'b' then .ok (.Both, p.dropLast)
    else .ok (.Standard, p)

/-- Models the sub-id loop of parseMeta (the range over specs[1:]): each
sub id must parse and be at least lowBound. -/
def parseSids (lowBound : Int) : List (List Char) → Except Err (List Int)
  | [] => .ok []
  | sid :: rest =>
    match parseInt0 sid with
    | none => .error (.invalidId sid)
    | some v =>
      if v < lowBound then .error (.invalidId sid)
      else match parseSids lowBound rest with
        | .error e => .error e
        | .ok t => .ok (v :: t)

/-- Models the entry loop of parseMeta of jcheck.go.  Note that the Go
loop returns from inside the loop body (keeping everything accumulated so
far) as soon as an entry has no sub-id fields or its id is -1. -/
def parseMetaLoop (lowBound : Int) : List (List Char) → Except Err (List metaIds)
  | [] => .ok []
  | part :: rest =>
    let s0 := (splitSep1 ':' part).1
    let srest := (splitSep1 ':' part).2
    match parseInt0 s0 with
    | none => .error (.invalidId s0)
    | some v =>
      if (v < lowBound ∨ v > 15) ∧ v ≠ -1 then .error (.invalidId s0)
      else
        if srest = [] ∨ v = -1 then .ok [⟨v, []⟩]
        else
          match parseSids lowBound srest with
          | .error e => .error e
          | .ok sids =>
            match parseMetaLoop lowBound rest with
            | .error e => .error e
            | .ok t => .ok (⟨v, sids⟩ :: t)

/-- Models parseMeta of jcheck.go: lowBound is 1 for removal (-rmeta) and
0 for display (-meta). -/
def parseMeta (rem : List Char) (remove : Bool) : Except Err (List metaIds) :=
  parseMetaLoop (if remove then 1 else 0) (splitSep ',' rem)

/-- Models the entry loop of parseSthumb of jcheck.go: each entry must
split on the colon into exactly two fields, and the id field must parse to
0 or 1. -/
def parseSthumbLoop : List (List Char) → Except Err (List ThumbSpec)
  | [] => .ok []
  | part :: rest =>
    match splitSep ':' part with
    | [a, b] =>
      match parseInt0 a with
      | none => .error (.invalidId a)
      | some v =>
        if v < 0 ∨ v > 1 then .error (.invalidId a)
        else match parseSthumbLoop rest with
          | .error e => .error e
          | .ok t => .ok (⟨b, v⟩ :: t)
    | _ => .error (.missingPathOrId part)

/-- Models parseSthumb of jcheck.go. -/
def parseSthumb (sthumb : List Char) : Except Err (List ThumbSpec) :=
  parseSthumbLoop (splitSep ',' sthumb)


/-- Models the entry loop of parseQuantization of jcheck.go: per entry,
strip the mode suffix, split on the colon, accept at most two fields, then
parse the destination (star or an integer in [0,3]) and the optional frame
(star or a non-negative integer, defaulting to 0). -/
def parseQuLoop (quantization : List Char) : List (List Char) → Except Err (List quTable)
  | [] => .ok []
  | part :: rest =>
    match getModePart part with
    | .error _ => .error (.quModeErr quantization)
    | .ok mp =>
      let s0 := (splitSep1 ':' mp.2).1
      let srest := (splitSep1 ':' mp.2).2
      if srest.length > 1 then .error (.quFormErr quantization)
      else
        match (if s0 = ['*'] then Except.ok (-1 : Int)
               else match parseInt0 s0 with
                 | none => Except.error (Err.invalidQuDest s0)
                 | some v =>
                   if v < 0 ∨ v > 3 then Except.error (Err.invalidQuDest s0)
                   else Except.ok v) with
        | .error e => .error e
        | .ok dest =>
          match (match srest with
                 | [] => Except.ok (0 : Int)
                 | s1 :: _ =>
                   if s1 = ['*'] then Except.ok (-1 : Int)
                   else match parseInt0 s1 with
                     | none => Except.error (Err.invalidQuFrame s1)
                     | some v =>
                       if v < 0 then Except.error (Err.invalidQuFrame s1)
                       else Except.ok v) with
          | .error e => .error e
          | .ok frame =>
            match parseQuLoop quantization rest with
            | .error e => .error e
            | .ok t => .ok (⟨dest, frame, mp.1⟩ :: t)

/-- Models parseQuantization of jcheck.go. -/
def parseQuantization (quantization : List Char) : Except Err (List quTable) :=
  parseQuLoop quantization (splitSep ',' quantization)

/-- Models the switch on specs[0] of parseEntropy: star, DC or AC. -/
def parseEnClass (s0 : List Char) : Except Err Int :=
  if s0 = ['*'] then .ok (-1)
  else if s0 = ['D', 'C'] then .ok 0
  else if s0 = ['A', 'C'] then .ok 1
  else .error (.invalidEnClass s0)

/-- Models the destination parsing of parseEntropy: a star destination
requires a star class, and a concrete destination (an integer in [0,3])
requires a concrete class. -/
def parseEnDest (cls : Int) (s1 : List Char) : Except Err Int :=
  if s1 = ['*'] then
    if cls ≠ -1 then .error .enSpecificDestAllClasses
    else .ok (-1)
  else
    if cls = -1 then .error .enAllDestsSpecificClass
    else match parseInt0 s1 with
      | none => .error (.invalidEnDest s1)
      | some v =>
        if v < 0 ∨ v > 3 then .error (.invalidEnDest s1)
        else .ok v

/-- Models the optional frame field of parseEntropy (specs[2] when there
are three fields, else the zero default). -/
def parseEnFrame : List (List Char) → Except Err Int
  | [] => .ok 0
  | s2 :: _ =>
    if s2 = ['*'] then .ok (-1)
    else match parseInt0 s2 with
      | none => .error (.invalidEnFrame s2)
      | some v =>
        if v < 0 then .error (.invalidEnFrame s2)
        else .ok v

/-- Models the entry loop of parseEntropy of jcheck.go: per entry, strip
the mode suffix, split on the colon, accept two or three fields, then
parse class, destination (with the cross-field check) and optional frame. -/
def parseEnLoop (entropy : List Char) : List (List Char) → Except Err (List enTable)
  | [] => .ok []
  | part :: rest =>
    match getModePart part with
    | .error _ => .error (.enModeErr entropy)
    | .ok mp =>
      match splitSep ':' mp.2 with
      | s0 :: s1 :: srest2 =>
        if srest2.length > 1 then .error (.enFormErr entropy)
        else
          match parseEnClass s0 with
          | .error e => .error e
          | .ok cls =>
            match parseEnDest cls s1 with
            | .error e => .error e
            | .ok dest =>
              match parseEnFrame srest2 with
              | .error e => .error e
              | .ok frame =>
                match parseEnLoop entropy rest with
                | .error e => .error e
                | .ok t => .ok (⟨cls, dest, frame, mp.1⟩ :: t)
      | _ => .error (.enFormErr entropy)

/-- Models parseEntropy of jcheck.go. -/
def parseEntropy (entropy : List Char) : Except Err (List enTable) :=
  parseEnLoop entropy (splitSep ',' entropy)


/-! ## Resolution and dispatch drivers

The drivers in jcheck.go (processMeta, processQuantization, processEntropy,
processScan, processRemove) iterate over the parsed selector lists and call
the external document operations jpg.FormatMetadata, jpg.FormatEncodingTable
and jpg.RemoveMetadata, breaking out of all loops at the first error.  The
document is modelled by its frame count and by oracle functions; each driver
additionally returns the sequence of external calls it performed, so that
dispatch order and short-circuiting are observable. -/

/-- The table kind argument of jpg.FormatEncodingTable. -/
inductive TableKind where
  | Quantization
  | Entropy
  | Scan
deriving DecidableEq

/-- One call to jpg.FormatEncodingTable (frame, kind, destination, mode). -/
structure TableCall where
  frame : Nat
  kind : TableKind
  dest : Int
  mode : FormatMode
deriving DecidableEq

/-- One call to jpg.FormatMetadata or jpg.RemoveMetadata (appId, sIds). -/
structure MetaCall where
  appId : Int
  sIds : List Int
deriving DecidableEq

/-- Models the Go conversion uint(i) on a 64-bit platform, as applied to a
selector frame field in the drivers. -/
def goUint (i : Int) : Nat := (i % (2 ^ 64)).toNat

/-- Generic fail-fast call loop: run the calls in order, stop at the first
error, and return the calls actually performed together with that first
error (if any).  This is the shape shared by every driver loop in
jcheck.go. -/
def runCalls {α ε ρ : Type} (f : α → Except ε ρ) : List α → List α × Option ε
  | [] => ([], none)
  | c :: rest =>
    match f c with
    | .error e => ([c], some e)
    | .ok _ =>
      let p := runCalls f rest
      (c :: p.1, p.2)

/-- Models the inner frame loop (for i := uint(0); i < nFrames; i++) of the
drivers, applied to an explicit list of frame indices. -/
def runTableFrames {ε : Type} (f : TableCall → Except ε Nat) (kind : TableKind)
    (dest : Int) (mode : FormatMode) : List Nat → List TableCall × Option ε
  | [] => ([], none)
  | i :: is =>
    match f ⟨i, kind, dest, mode⟩ with
    | .error e => ([⟨i, kind, dest, mode⟩], some e)
    | .ok _ =>
      let p := runTableFrames f kind dest mode is
      (⟨i, kind, dest, mode⟩ :: p.1, p.2)

/-- Models processMeta of jcheck.go: call jpg.FormatMetadata for each
selector in order, breaking at the first error. -/
def processMeta {ε : Type} (fm : MetaCall → Except ε Nat) : List metaIds → List MetaCall × Option ε
  | [] => ([], none)
  | mid :: rest =>
    match fm ⟨mid.appId, mid.sIds⟩ with
    | .error e => ([⟨mid.appId, mid.sIds⟩], some e)
    | .ok _ =>
      let p := processMeta fm rest
      (⟨mid.appId, mid.sIds⟩ :: p.1, p.2)

/-- Models processRemove of jcheck.go: call jpg.RemoveMetadata for each
removal selector in order, breaking at the first error. -/
def processRemove {ε : Type} (rm : MetaCall → Except ε Unit) : List metaIds → List MetaCall × Option ε
  | [] => ([], none)
  | mid :: rest =>
    match rm ⟨mid.appId, mid.sIds⟩ with
    | .error e => ([⟨mid.appId, mid.sIds⟩], some e)
    | .ok _ =>
      let p := processRemove rm rest
      (⟨mid.appId, mid.sIds⟩ :: p.1, p.2)

/-- Models processQuantization of jcheck.go: a selector with frame -1
expands over all frames in increasing order, any error breaks out of the
labelled outer loop (break tableLoop). -/
def processQuantization {ε : Type} (f : TableCall → Except ε Nat) (nFrames : Nat) :
    List quTable → List TableCall × Option ε
  | [] => ([], none)
  | qt :: rest =>
    if qt.frame = -1 then
      let inner := runTableFrames f .Quantization qt.dest qt.mode (List.range nFrames)
      match inner.2 with
      | some e => (inner.1, some e)
      | none =>
        let p := processQuantization f nFrames rest
        (inner.1 ++ p.1, p.2)
    else
      match f ⟨goUint qt.frame, .Quantization, qt.dest, qt.mode⟩ with
      | .error e => ([⟨goUint qt.frame, .Quantization, qt.dest, qt.mode⟩], some e)
      | .ok _ =>
        let p := processQuantization f nFrames rest
        (⟨goUint qt.frame, .Quantization, qt.dest, qt.mode⟩ :: p.1, p.2)

/-- Models processEntropy of jcheck.go: a star class passes destination -1
through unchanged, a concrete class flattens (class, dest) to
class * 4 + dest; a selector with frame -1 expands over all frames; any
error breaks out of the labelled outer loop. -/
def processEntropy {ε : Type} (f : TableCall → Except ε Nat) (nFrames : Nat) :
    List enTable → List TableCall × Option ε
  | [] => ([], none)
  | et :: rest =>
    if et.cls = -1 then
      if et.frame = -1 then
        let inner := runTableFrames f .Entropy (-1) et.mode (List.range nFrames)
        match inner.2 with
        | some e => (inner.1, some e)
        | none =>
          let p := processEntropy f nFrames rest
          (inner.1 ++ p.1, p.2)
      else
        match f ⟨goUint et.frame, .Entropy, -1, et.mode⟩ with
        | .error e => ([⟨goUint et.frame, .Entropy, -1, et.mode⟩], some e)
        | .ok _ =>
          let p := processEntropy f nFrames rest
          (⟨goUint et.frame, .Entropy, -1, et.mode⟩ :: p.1, p.2)
    else
      let dest := et.cls * 4 + et.dest
      if et.frame = -1 then
        let inner := runTableFrames f .Entropy dest et.mode (List.range nFrames)
        match inner.2 with
        | some e => (inner.1, some e)
        | none =>
          let p := processEntropy f nFrames rest
          (inner.1 ++ p.1, p.2)
      else
        match f ⟨goUint et.frame, .Entropy, dest, et.mode⟩ with
        | .error e => ([⟨goUint et.frame, .Entropy, dest, et.mode⟩], some e)
        | .ok _ =>
          let p := processEntropy f nFrames rest
          (⟨goUint et.frame, .Entropy, dest, et.mode⟩ :: p.1, p.2)

/-- Models processScan of jcheck.go. -/
def processScan {ε : Type} (f : TableCall → Except ε Nat) (nFrames : Nat) :
    List scTable → List TableCall × Option ε
  | [] => ([], none)
  | sc :: rest =>
    if sc.frame = -1 then
      let inner := runTableFrames f .Scan sc.index sc.mode (List.range nFrames)
      match inner.2 with
      | some e => (inner.1, some e)
      | none =>
        let p := processScan f nFrames rest
        (inner.1 ++ p.1, p.2)
    else
      match f ⟨goUint sc.frame, .Scan, sc.index, sc.mode⟩ with
      | .error e => ([⟨goUint sc.frame, .Scan, sc.index, sc.mode⟩], some e)
      | .ok _ =>
        let p := processScan f nFrames rest
        (⟨goUint sc.frame, .Scan, sc.index, sc.mode⟩ :: p.1, p.2)

/-! ## Specification-side descriptions used in theorem statements -/

/-- True exactly on a successful Except result. -/
def okB {ε ρ : Type} : Except ε ρ → Bool
  | .ok _ => true
  | .error _ => false

/-- The concrete calls one table selector resolves to: a frame of -1
expands to every frame index 0 .. n-1 in increasing order, a concrete
frame to a single call. -/
def tableCalls (kind : TableKind) (n : Nat) (dest frame : Int) (mode : FormatMode) : List TableCall :=
  if frame = -1 then (List.range n).map (fun i => ⟨i, kind, dest, mode⟩)
  else [⟨goUint frame, kind, dest, mode⟩]

/-- The full call sequence a quantization selector list resolves to, in
input order. -/
def quCalls (n : Nat) : List quTable → List TableCall
  | [] => []
  | qt :: rest => tableCalls .Quantization n qt.dest qt.frame qt.mode ++ quCalls n rest

/-- The full call sequence an entropy selector list resolves to: a star
class passes destination -1 through, a concrete class flattens to
class * 4 + destination. -/
def enCalls (n : Nat) : List enTable → List TableCall
  | [] => []
  | et :: rest =>
    tableCalls .Entropy n (if et.cls = -1 then -1 else et.cls * 4 + et.dest) et.frame et.mode
      ++ enCalls n rest

/-- The full call sequence a scan selector list resolves to. -/
def scCalls (n : Nat) : List scTable → List TableCall
  | [] => []
  | sc :: rest => tableCalls .Scan n sc.index sc.frame sc.mode ++ scCalls n rest

/-- The full call sequence a metadata selector list resolves to. -/
def metaCalls (mids : List metaIds) : List MetaCall :=
  mids.map fun m => ⟨m.appId, m.sIds⟩

/-- Specification-side predicate (wording of the thumbnail grammar): the
entry splits on the colon into exactly two fields and the first field
parses as an integer in the set containing zero and one. -/
def goodThumbEntry (part : List Char) : Bool :=
  match splitSep ':' part with
  | [a, _] =>
    match parseInt0 a with
    | some v => decide (v = 0) || decide (v = 1)
    | none => false
  | _ => false

/-- The selector a metadata entry yields when the parseMeta loop processes
it and continues to the next entry (valid non-ALL id with at least one
valid sub-id field); none when the entry errors or short-circuits the
loop. -/
def metaEntryCont (lowBound : Int) (part : List Char) : Option metaIds :=
  let s0 := (splitSep1 ':' part).1
  let srest := (splitSep1 ':' part).2
  match parseInt0 s0 with
  | none => none
  | some v =>
    if (v < lowBound ∨ v > 15) ∧ v ≠ -1 then none
    else if srest = [] ∨ v = -1 then none
    else match parseSids lowBound srest with
      | .error _ => none
      | .ok sids => some ⟨v, sids⟩

/-- metaEntryCont over a list of entries. -/
def metaEntriesCont (lowBound : Int) : List (List Char) → Option (List metaIds)
  | [] => some []
  | p :: ps =>
    match metaEntryCont lowBound p with
    | none => none
    | some m =>
      match metaEntriesCont lowBound ps with
      | none => none
      | some t => some (m :: t)

/-! Concrete oracles used by the witnesses below. -/

/-- A document operation oracle that always succeeds. -/
def allOkTC : TableCall → Except Nat Nat := fun _ => .ok 0

/-- A table oracle that fails exactly on frame 1. -/
def failFrame1 : TableCall → Except Nat Nat := fun c => if c.frame = 1 then .error 5 else .ok 0

/-- A metadata formatting oracle that fails exactly on app id 1. -/
def failApp1 : MetaCall → Except Nat Nat := fun c => if c.appId = 1 then .error 7 else .ok 0

/-- A metadata removal oracle that fails exactly on app id 1. -/
def failApp1U : MetaCall → Except Nat Unit := fun c => if c.appId = 1 then .error 9 else .ok ()

/-! ## Helper lemmas -/

theorem splitSep1_not_mem {sep : Char} {part : List Char} (h : sep ∉ part) :
    splitSep1 sep part = (part, []) := by
  induction part with
  | nil => rfl
  | cons c cs ih =>
    have hc : ¬ c = sep := fun hh => h (hh ▸ List.mem_cons_self c cs)
    have hcs : sep ∉ cs := fun hh => h (List.mem_cons_of_mem c hh)
    simp only [splitSep1, ih hcs, if_neg hc]

theorem runCalls_trace_of_none {α ε ρ : Type} (f : α → Except ε ρ) (cs : List α)
    (h : (runCalls f cs).2 = none) : (runCalls f cs).1 = cs := by
  induction cs with
  | nil => rfl
  | cons c rest ih =>
    cases hf : f c with
    | error e => simp [runCalls, hf] at h
    | ok r =>
      simp only [runCalls, hf] at h ⊢
      simp only [List.cons.injEq, true_and]
      exact ih h

theorem runCalls_append {α ε ρ : Type} (f : α → Except ε ρ) (xs ys : List α) :
    runCalls f (xs ++ ys) =
      match (runCalls f xs).2 with
      | some e => ((runCalls f xs).1, some e)
      | none => ((runCalls f xs).1 ++ (runCalls f ys).1, (runCalls f ys).2) := by
  induction xs with
  | nil => simp [runCalls]
  | cons x xs ih =>
    cases hf : f x with
    | error e => simp [runCalls, hf]
    | ok r =>
      simp only [List.cons_append, runCalls, hf, List.append_eq]
      rw [ih]
      cases h2 : (runCalls f xs).2 <;> simp [h2]

theorem runCalls_all_ok {α ε ρ : Type} (f : α → Except ε ρ) (cs : List α)
    (h : ∀ c ∈ cs, okB (f c)) : runCalls f cs = (cs, none) := by
  induction cs with
  | nil => rfl
  | cons c rest ih =>
    have hc := h c (List.mem_cons_self c rest)
    cases hf : f c with
    | error e => rw [hf] at hc; simp [okB] at hc
    | ok r =>
      simp only [runCalls, hf]
      rw [ih fun x hx => h x (List.mem_cons_of_mem c hx)]

theorem runCalls_first_error {α ε ρ : Type} (f : α → Except ε ρ) (pre : List α)
    (c : α) (post : List α) (e : ε) (hpre : ∀ x ∈ pre, okB (f x)) (hc : f c = .error e) :
    runCalls f (pre ++ c :: post) = (pre ++ [c], some e) := by
  induction pre with
  | nil => simp [runCalls, hc]
  | cons x xs ih =>
    have hx := hpre x (List.mem_cons_self x xs)
    cases hf : f x with
    | error e2 => rw [hf] at hx; simp [okB] at hx
    | ok r =>
      simp only [List.cons_append, runCalls, hf, List.append_eq]
      rw [ih fun y hy => hpre y (List.mem_cons_of_mem x hy)]

theorem runTableFrames_eq {ε : Type} (f : TableCall → Except ε Nat) (kind : TableKind)
    (dest : Int) (mode : FormatMode) (is : List Nat) :
    runTableFrames f kind dest mode is =
      runCalls f (is.map fun i => ⟨i, kind, dest, mode⟩) := by
  induction is with
  | nil => rfl
  | cons i is ih =>
    cases hf : f ⟨i, kind, dest, mode⟩ <;>
      simp [runTableFrames, runCalls, List.map_cons, hf, ih]

theorem processMeta_eq {ε : Type} (fm : MetaCall → Except ε Nat) (mids : List metaIds) :
    processMeta fm mids = runCalls fm (metaCalls mids) := by
  induction mids with
  | nil => rfl
  | cons m rest ih =>
    simp only [processMeta, metaCalls, List.map_cons, runCalls]
    cases hf : fm ⟨m.appId, m.sIds⟩ <;> simp only [metaCalls] at ih <;> rw [ih]

theorem processRemove_eq {ε : Type} (rm : MetaCall → Except ε Unit) (mids : List metaIds) :
    processRemove rm mids = runCalls rm (metaCalls mids) := by
  induction mids with
  | nil => rfl
  | cons m rest ih =>
    simp only [processRemove, metaCalls, List.map_cons, runCalls]
    cases hf : rm ⟨m.appId, m.sIds⟩ <;> simp only [metaCalls] at ih <;> rw [ih]

theorem processQuantization_eq {ε : Type} (f : TableCall → Except ε Nat) (n : Nat)
    (qts : List quTable) : processQuantization f n qts = runCalls f (quCalls n qts) := by
  induction qts with
  | nil => rfl
  | cons qt rest ih =>
    by_cases hq : qt.frame = -1
    · unfold processQuantization
      rw [if_pos hq]
      simp only [quCalls, tableCalls, if_pos hq, runTableFrames_eq, runCalls_append, ih]
    · unfold processQuantization
      rw [if_neg hq]
      simp only [quCalls, tableCalls, if_neg hq, List.singleton_append, runCalls, ih]
      cases hfc : f ⟨goUint qt.frame, .Quantization, qt.dest, qt.mode⟩ <;> simp [hfc]

theorem processScan_eq {ε : Type} (f : TableCall → Except ε Nat) (n : Nat)
    (scs : List scTable) : processScan f n scs = runCalls f (scCalls n scs) := by
  induction scs with
  | nil => rfl
  | cons sc rest ih =>
    by_cases hs : sc.frame = -1
    · unfold processScan
      rw [if_pos hs]
      simp only [scCalls, tableCalls, if_pos hs, runTableFrames_eq, runCalls_append, ih]
    · unfold processScan
      rw [if_neg hs]
      simp only [scCalls, tableCalls, if_neg hs, List.singleton_append, runCalls, ih]
      cases hfc : f ⟨goUint sc.frame, .Scan, sc.index, sc.mode⟩ <;> simp [hfc]

theorem processEntropy_eq {ε : Type} (f : TableCall → Except ε Nat) (n : Nat)
    (ets : List enTable) : processEntropy f n ets = runCalls f (enCalls n ets) := by
  induction ets with
  | nil => rfl
  | cons et rest ih =>
    by_cases hc : et.cls = -1
    · by_cases hf : et.frame = -1
      · unfold processEntropy
        rw [if_pos hc, if_pos hf]
        simp [enCalls, tableCalls, hc, hf, runTableFrames_eq, runCalls_append, ih]
      · unfold processEntropy
        rw [if_pos hc, if_neg hf]
        simp only [enCalls, tableCalls, hc, hf, if_pos, if_neg, if_true, ite_false,
          ite_true, List.singleton_append, runCalls, ih]
        cases hfc : f ⟨goUint et.frame, .Entropy, -1, et.mode⟩ <;> simp [hfc, hf]
    · by_cases hf : et.frame = -1
      · unfold processEntropy
        rw [if_neg hc, if_pos hf]
        simp [enCalls, tableCalls, hc, hf, runTableFrames_eq, runCalls_append, ih]
      · unfold processEntropy
        rw [if_neg hc, if_neg hf]
        simp only [enCalls, tableCalls, hc, hf, if_neg, ite_false, List.singleton_append,
          runCalls, ih]
        cases hfc : f ⟨goUint et.frame, .Entropy, et.cls * 4 + et.dest, et.mode⟩ <;>
          simp [hfc, hc, hf]

theorem metaEntryCont_step (lb : Int) (part : List Char) (m : metaIds)
    (h : metaEntryCont lb part = some m) (rest : List (List Char)) :
    parseMetaLoop lb (part :: rest) =
      match parseMetaLoop lb rest with
      | .error e => .error e
      | .ok t => .ok (m :: t) := by
  simp only [metaEntryCont] at h
  rcases hp : parseInt0 (splitSep1 ':' part).1 with _ | v
  · simp only [hp] at h
    exact Option.noConfusion h
  · simp only [hp] at h
    by_cases h1 : (v < lb ∨ v > 15) ∧ v ≠ -1
    · rw [if_pos h1] at h; exact absurd h (by simp)
    · rw [if_neg h1] at h
      by_cases h2 : (splitSep1 ':' part).2 = [] ∨ v = -1
      · rw [if_pos h2] at h; exact absurd h (by simp)
      · rw [if_neg h2] at h
        rcases hs : parseSids lb (splitSep1 ':' part).2 with e | sids
        · simp only [hs] at h
          exact Option.noConfusion h
        · simp only [hs, Option.some.injEq] at h
          subst h
          simp only [parseMetaLoop, hp]
          rw [if_neg h1, if_neg h2, hs]

theorem metaEntriesCont_prefix (lb : Int) (pre : List (List Char)) (sels : List metaIds)
    (h : metaEntriesCont lb pre = some sels) (rest : List (List Char)) :
    parseMetaLoop lb (pre ++ rest) =
      match parseMetaLoop lb rest with
      | .error e => .error e
      | .ok t => .ok (sels ++ t) := by
  induction pre generalizing sels with
  | nil =>
    simp only [metaEntriesCont, Option.some.injEq] at h
    subst h
    simp only [List.nil_append]
    cases parseMetaLoop lb rest <;> simp
  | cons p ps ih =>
    simp only [metaEntriesCont] at h
    rcases hm : metaEntryCont lb p with _ | m
    · rw [hm] at h; exact absurd h (by simp)
    · rw [hm] at h
      rcases ht : metaEntriesCont lb ps with _ | t
      · rw [ht] at h; exact absurd h (by simp)
      · rw [ht] at h
        simp only [Option.some.injEq] at h
        subst h
        rw [List.cons_append, metaEntryCont_step lb p m hm, ih t ht]
        cases parseMetaLoop lb rest <;> simp

theorem parseMetaLoop_all (lb : Int) (part : List Char)
    (hall : parseInt0 (splitSep1 ':' part).1 = some (-1)) (rest : List (List Char)) :
    parseMetaLoop lb (part :: rest) = .ok [⟨-1, []⟩] := by
  simp [parseMetaLoop, hall]

theorem parseEnDest_iff (cls : Int) (s1 : List Char) (d : Int)
    (h : parseEnDest cls s1 = .ok d) : cls = -1 ↔ d = -1 := by
  simp only [parseEnDest] at h
  by_cases hstar : s1 = ['*']
  · rw [if_pos hstar] at h
    by_cases hcls : cls ≠ -1
    · rw [if_pos hcls] at h; exact absurd h (by simp)
    · rw [if_neg hcls] at h
      simp only [Except.ok.injEq] at h
      subst h
      simp only [ne_eq, not_not] at hcls
      simp [hcls]
  · rw [if_neg hstar] at h
    by_cases hcls : cls = -1
    · rw [if_pos hcls] at h; exact absurd h (by simp)
    · rw [if_neg hcls] at h
      rcases hp : parseInt0 s1 with _ | v
      · simp only [hp] at h
        exact Except.noConfusion h
      · simp only [hp] at h
        by_cases hv : v < 0 ∨ v > 3
        · rw [if_pos hv] at h; exact absurd h (by simp)
        · rw [if_neg hv] at h
          simp only [Except.ok.injEq] at h
          subst h
          constructor
          · intro hh; exact absurd hh hcls
          · intro hh; omega

theorem parseEnLoop_inv (entropy : List Char) (parts : List (List Char))
    (res : List enTable) (h : parseEnLoop entropy parts = .ok res) :
    ∀ et ∈ res, (et.cls = -1 ↔ et.dest = -1) := by
  induction parts generalizing res with
  | nil =>
    simp only [parseEnLoop, Except.ok.injEq] at h
    subst h
    simp
  | cons part rest ih =>
    simp only [parseEnLoop] at h
    rcases hmp : getModePart part with e | mp
    · simp only [hmp] at h
      exact Except.noConfusion h
    · simp only [hmp] at h
      rcases hsp : splitSep ':' mp.2 with _ | ⟨s0, _ | ⟨s1, srest2⟩⟩
      · simp only [hsp] at h
        exact Except.noConfusion h
      · simp only [hsp] at h
        exact Except.noConfusion h
      · simp only [hsp] at h
        by_cases hlen : srest2.length > 1
        · rw [if_pos hlen] at h; exact Except.noConfusion h
        · rw [if_neg hlen] at h
          rcases hcl : parseEnClass s0 with e | cls
          · simp only [hcl] at h
            exact Except.noConfusion h
          · simp only [hcl] at h
            rcases hd : parseEnDest cls s1 with e | dest
            · simp only [hd] at h
              exact Except.noConfusion h
            · simp only [hd] at h
              rcases hfr : parseEnFrame srest2 with e | frame
              · simp only [hfr] at h
                exact Except.noConfusion h
              · simp only [hfr] at h
                rcases hrec : parseEnLoop entropy rest with e | t
                · simp only [hrec] at h
                  exact Except.noConfusion h
                · simp only [hrec, Except.ok.injEq] at h
                  subst h
                  intro et het
                  rcases List.mem_cons.mp het with het | het
                  · subst het
                    exact parseEnDest_iff cls s1 dest hd
                  · exact ih t hrec et het

theorem parseSthumbLoop_ok (parts : List (List Char)) :
    okB (parseSthumbLoop parts) = parts.all goodThumbEntry := by
  induction parts with
  | nil => rfl
  | cons part rest ih =>
    simp only [parseSthumbLoop, goodThumbEntry, List.all_cons]
    rcases hsp : splitSep ':' part with _ | ⟨a, _ | ⟨b, _ | ⟨c, tl⟩⟩⟩
    · simp [okB, hsp]
    · simp [okB, hsp]
    · simp only [hsp]
      rcases hp : parseInt0 a with _ | v
      · simp [okB, hp]
      · simp only [hp]
        by_cases hv : v < 0 ∨ v > 1
        · have hv2 : ¬ (v = 0 ∨ v = 1) := by omega
          rw [if_pos hv]
          simp [okB, hv2]
        · have hv2 : v = 0 ∨ v = 1 := by omega
          rw [if_neg hv, ← ih]
          rcases hrec : parseSthumbLoop rest with e | t
          · simp [hrec, okB]
          · rcases hv2 with h0 | h0 <;> simp [hrec, okB, h0]
    · simp [okB, hsp]

/-! ## Claim theorems -/

/-- Claim C1: the spec (and the help text in jcheck.go itself) says that
-meta=0,1:0:2 parses to the two-element list [{0, []}, {1, [0, 2]}].  The
code disagrees: the early return of parseMeta triggers on the first entry
(no sub-id fields), so only [{0, []}] is produced and the entry 1:0:2 is
silently discarded. -/
theorem C1_meta_doc_example_divergence :
    parseMeta ("0,1:0:2".data) false = .ok [⟨0, []⟩] ∧
    parseMeta ("0,1:0:2".data) false ≠ .ok [⟨0, []⟩, ⟨1, [0, 2]⟩] := by decide

/-- Claim C2: whenever the first comma-separated entry of a metadata option
value has no colon-separated sub-id fields and its container id is valid for
the context (any id, the ALL sentinel included), parseMeta returns exactly
that one selector and discards every later entry without parsing it (the
later entries are arbitrary strings). -/
theorem C2_meta_first_plain_entry_short_circuit (rem : List Char) (remove : Bool)
    (part : List Char) (restParts : List (List Char)) (v : Int)
    (hsplit : splitSep ',' rem = part :: restParts)
    (hnc : ':' ∉ part)
    (hp : parseInt0 part = some v)
    (hv : ¬ ((v < (if remove then (1 : Int) else 0) ∨ v > 15) ∧ v ≠ -1)) :
    parseMeta rem remove = .ok [⟨v, []⟩] := by
  have hs1 : splitSep1 ':' part = (part, []) := splitSep1_not_mem hnc
  unfold parseMeta
  rw [hsplit]
  simp only [parseMetaLoop, hs1, hp]
  rw [if_neg hv]
  simp

/-- Witness for C2: the option value 3,zzz short-circuits after the entry 3
even though zzz is not parseable. -/
theorem C2_witness : parseMeta ("3,zzz".data) false = .ok [⟨3, []⟩] :=
  C2_meta_first_plain_entry_short_circuit ("3,zzz".data) false ("3".data) ["zzz".data] 3
    (by decide) (by decide) (by decide) (by decide)

/-- Claim C3 counterexample: in 1,-1 every entry is valid and the first ALL
entry is the second one, yet parsing already returned at the first entry
(which has no sub-id fields), so the ALL selector is never appended, contrary
to the claim that the first ALL entry is appended last. -/
theorem C3_counterexample :
    parseMeta ("1,-1".data) false = .ok [⟨1, []⟩] ∧
    (⟨-1, []⟩ : metaIds) ∉ [(⟨1, []⟩ : metaIds)] := by decide

/-- Claim C3 (amended): provided every entry before the first ALL entry
parses successfully with at least one sub-id field (so the loop reaches the
ALL entry), the first ALL entry is terminal: parseMeta returns immediately
with that selector appended last and the entries after it are never parsed
(they are arbitrary strings); in particular -1,3 parses to [{-1, []}]. -/
theorem C3_meta_all_terminal (rem : List Char) (remove : Bool)
    (pre : List (List Char)) (part : List Char) (post : List (List Char))
    (sels : List metaIds)
    (hsplit : splitSep ',' rem = pre ++ part :: post)
    (hpre : metaEntriesCont (if remove then 1 else 0) pre = some sels)
    (hall : parseInt0 (splitSep1 ':' part).1 = some (-1)) :
    parseMeta rem remove = .ok (sels ++ [⟨-1, []⟩]) ∧
    parseMeta ("-1,3".data) false = .ok [⟨-1, []⟩] := by
  constructor
  · unfold parseMeta
    rw [hsplit, metaEntriesCont_prefix _ pre sels hpre, parseMetaLoop_all _ part hall post]
  · decide

/-- Witness for C3 at a concrete input: one continuing entry with a sub id,
then the ALL entry, then a discarded entry. -/
theorem C3_witness :
    parseMeta ("2:4,-1,9".data) false = .ok [⟨2, [4]⟩, ⟨-1, []⟩] ∧
    parseMeta ("-1,3".data) false = .ok [⟨-1, []⟩] :=
  C3_meta_all_terminal ("2:4,-1,9".data) false ["2:4".data] ("-1".data) ["9".data]
    [⟨2, [4]⟩] (by decide) (by decide) (by decide)

/-- Claim C4: every selector list returned by parseEntropy satisfies the
cross-field invariant (destination is the ALL sentinel iff the class is),
and both kinds of violating entries are rejected at parse time: a specific
class with a star destination and a star class with a specific destination
each produce an error. -/
theorem C4_entropy_invariant (s : List Char) (res : List enTable)
    (h : parseEntropy s = .ok res) :
    (∀ et ∈ res, (et.dest = -1 ↔ et.cls = -1)) ∧
    parseEntropy ("DC:*".data) = .error .enSpecificDestAllClasses ∧
    parseEntropy ("*:2".data) = .error .enAllDestsSpecificClass := by
  refine ⟨?_, by decide, by decide⟩
  intro et het
  exact (parseEnLoop_inv s (splitSep ',' s) res h et het).symm

/-- Witness for C4 at the concrete input DC:1x. -/
theorem C4_witness :
    (∀ et ∈ [(⟨0, 1, 0, FormatMode.Extra⟩ : enTable)], (et.dest = -1 ↔ et.cls = -1)) ∧
    parseEntropy ("DC:*".data) = .error .enSpecificDestAllClasses ∧
    parseEntropy ("*:2".data) = .error .enAllDestsSpecificClass :=
  C4_entropy_invariant ("DC:1x".data) [⟨0, 1, 0, .Extra⟩] (by decide)

/-- Claim C5: every dispatch driver (metadata formatting, quantization,
entropy, scan, metadata removal) stops at the first error returned by an
invoked external operation: the calls performed are exactly the successful
prefix of the resolved call list plus the failing call, and that first
error is returned unmodified. -/
theorem C5_dispatch_fail_fast {ε : Type} :
    (∀ (fm : MetaCall → Except ε Nat) (mids : List metaIds) (pre : List MetaCall)
        (c : MetaCall) (post : List MetaCall) (e : ε),
        metaCalls mids = pre ++ c :: post → (∀ x ∈ pre, okB (fm x)) → fm c = .error e →
        processMeta fm mids = (pre ++ [c], some e)) ∧
    (∀ (f : TableCall → Except ε Nat) (n : Nat) (qts : List quTable) (pre : List TableCall)
        (c : TableCall) (post : List TableCall) (e : ε),
        quCalls n qts = pre ++ c :: post → (∀ x ∈ pre, okB (f x)) → f c = .error e →
        processQuantization f n qts = (pre ++ [c], some e)) ∧
    (∀ (f : TableCall → Except ε Nat) (n : Nat) (ets : List enTable) (pre : List TableCall)
        (c : TableCall) (post : List TableCall) (e : ε),
        enCalls n ets = pre ++ c :: post → (∀ x ∈ pre, okB (f x)) → f c = .error e →
        processEntropy f n ets = (pre ++ [c], some e)) ∧
    (∀ (f : TableCall → Except ε Nat) (n : Nat) (scs : List scTable) (pre : List TableCall)
        (c : TableCall) (post : List TableCall) (e : ε),
        scCalls n scs = pre ++ c :: post → (∀ x ∈ pre, okB (f x)) → f c = .error e →
        processScan f n scs = (pre ++ [c], some e)) ∧
    (∀ (rm : MetaCall → Except ε Unit) (mids : List metaIds) (pre : List MetaCall)
        (c : MetaCall) (post : List MetaCall) (e : ε),
        metaCalls mids = pre ++ c :: post → (∀ x ∈ pre, okB (rm x)) → rm c = .error e →
        processRemove rm mids = (pre ++ [c], some e)) := by
  refine ⟨fun fm mids pre c post e hexp hpre hc => ?_,
          fun f n qts pre c post e hexp hpre hc => ?_,
          fun f n ets pre c post e hexp hpre hc => ?_,
          fun f n scs pre c post e hexp hpre hc => ?_,
          fun rm mids pre c post e hexp hpre hc => ?_⟩
  · rw [processMeta_eq, hexp]; exact runCalls_first_error fm pre c post e hpre hc
  · rw [processQuantization_eq, hexp]; exact runCalls_first_error f pre c post e hpre hc
  · rw [processEntropy_eq, hexp]; exact runCalls_first_error f pre c post e hpre hc
  · rw [processScan_eq, hexp]; exact runCalls_first_error f pre c post e hpre hc
  · rw [processRemove_eq, hexp]; exact runCalls_first_error rm pre c post e hpre hc

/-- Witness for C5: each of the five drivers run against an oracle that
fails on its second resolved call performs exactly two calls and returns
that error. -/
theorem C5_witness :
    processMeta failApp1 [⟨0, []⟩, ⟨1, []⟩, ⟨2, []⟩] = ([⟨0, []⟩, ⟨1, []⟩], some 7) ∧
    processQuantization failFrame1 3 [⟨2, -1, .Standard⟩]
      = ([⟨0, .Quantization, 2, .Standard⟩, ⟨1, .Quantization, 2, .Standard⟩], some 5) ∧
    processEntropy failFrame1 3 [⟨-1, -1, -1, .Standard⟩]
      = ([⟨0, .Entropy, -1, .Standard⟩, ⟨1, .Entropy, -1, .Standard⟩], some 5) ∧
    processScan failFrame1 3 [⟨0, -1, .Standard⟩]
      = ([⟨0, .Scan, 0, .Standard⟩, ⟨1, .Scan, 0, .Standard⟩], some 5) ∧
    processRemove failApp1U [⟨2, []⟩, ⟨1, [0]⟩, ⟨3, []⟩] = ([⟨2, []⟩, ⟨1, [0]⟩], some 9) :=
  ⟨(@C5_dispatch_fail_fast Nat).1 failApp1 [⟨0, []⟩, ⟨1, []⟩, ⟨2, []⟩]
      [⟨0, []⟩] ⟨1, []⟩ [⟨2, []⟩] 7 (by decide) (by decide) (by decide),
   (@C5_dispatch_fail_fast Nat).2.1 failFrame1 3 [⟨2, -1, .Standard⟩]
      [⟨0, .Quantization, 2, .Standard⟩] ⟨1, .Quantization, 2, .Standard⟩
      [⟨2, .Quantization, 2, .Standard⟩] 5 (by decide) (by decide) (by decide),
   (@C5_dispatch_fail_fast Nat).2.2.1 failFrame1 3 [⟨-1, -1, -1, .Standard⟩]
      [⟨0, .Entropy, -1, .Standard⟩] ⟨1, .Entropy, -1, .Standard⟩
      [⟨2, .Entropy, -1, .Standard⟩] 5 (by decide) (by decide) (by decide),
   (@C5_dispatch_fail_fast Nat).2.2.2.1 failFrame1 3 [⟨0, -1, .Standard⟩]
      [⟨0, .Scan, 0, .Standard⟩] ⟨1, .Scan, 0, .Standard⟩
      [⟨2, .Scan, 0, .Standard⟩] 5 (by decide) (by decide) (by decide),
   (@C5_dispatch_fail_fast Nat).2.2.2.2 failApp1U [⟨2, []⟩, ⟨1, [0]⟩, ⟨3, []⟩]
      [⟨2, []⟩] ⟨1, [0]⟩ [⟨3, []⟩] 9 (by decide) (by decide) (by decide)⟩

/-- Claim C6: when every call succeeds, the quantization driver performs
exactly the resolved call list, in selector input order, an ALL-frame
selector expanding to frames 0 .. n-1 in increasing order with destination
and mode passed unchanged; and the option value *:*b parses to the single
selector {ALL, ALL, Both}, which against a three-frame document resolves to
exactly three calls with frames 0, 1, 2, destination -1 and mode Both. -/
theorem C6_qu_all_frames {ε : Type} (f : TableCall → Except ε Nat) (n : Nat)
    (qts : List quTable) (hok : ∀ c, okB (f c)) :
    processQuantization f n qts = (quCalls n qts, none) ∧
    parseQuantization ("*:*b".data) = .ok [⟨-1, -1, .Both⟩] ∧
    processQuantization f 3 [⟨-1, -1, .Both⟩]
      = ([⟨0, .Quantization, -1, .Both⟩, ⟨1, .Quantization, -1, .Both⟩,
          ⟨2, .Quantization, -1, .Both⟩], none) := by
  refine ⟨?_, by decide, ?_⟩
  · rw [processQuantization_eq]
    exact runCalls_all_ok f _ (fun c _ => hok c)
  · rw [processQuantization_eq, runCalls_all_ok f _ (fun c _ => hok c)]
    rfl

/-- Witness for C6 with the all-success oracle. -/
theorem C6_witness :
    processQuantization allOkTC 2 [⟨3, 0, .Standard⟩] = (quCalls 2 [⟨3, 0, .Standard⟩], none) ∧
    parseQuantization ("*:*b".data) = .ok [⟨-1, -1, .Both⟩] ∧
    processQuantization allOkTC 3 [⟨-1, -1, .Both⟩]
      = ([⟨0, .Quantization, -1, .Both⟩, ⟨1, .Quantization, -1, .Both⟩,
          ⟨2, .Quantization, -1, .Both⟩], none) :=
  C6_qu_all_frames allOkTC 2 [⟨3, 0, .Standard⟩] (fun _ => rfl)

/-- Claim C7: the container id 0 is rejected with an invalid-id error in the
removal context (-rmeta, lowBound 1) but accepted in the display context
(-meta, lowBound 0), yielding {0, []}; the ALL sentinel -1 is accepted in
both contexts. -/
theorem C7_lowBound_contexts :
    parseMeta ("0".data) true = .error (.invalidId ['0']) ∧
    parseMeta ("0".data) false = .ok [⟨0, []⟩] ∧
    parseMeta ("-1".data) true = .ok [⟨-1, []⟩] ∧
    parseMeta ("-1".data) false = .ok [⟨-1, []⟩] := by decide

/-- Claim C8: on a non-empty fragment (written as some list followed by its
final character) the mode suffix parser consumes a final x, b or s and
returns Extra, Both or Standard respectively, returns Standard with the
fragment unchanged on any other final character, and fails on the empty
fragment. -/
theorem C8_mode_suffix (p : List Char) (c : Char) :
    getModePart [] = .error .modeErr ∧
    getModePart (p ++ [c]) =
      (if c = 'x' then .ok (.Extra, p)
       else if c = 'b' then .ok (.Both, p)
       else if c = 's' then .ok (.Standard, p)
       else .ok (.Standard, p ++ [c])) := by
  refine ⟨rfl, ?_⟩
  by_cases hs : c = 's'
  · subst hs; simp [getModePart, List.getLast?_concat, List.dropLast_concat]
  · by_cases hx : c = 'x'
    · subst hx; simp [getModePart, List.getLast?_concat, List.dropLast_concat]
    · by_cases hb : c = 'b'
      · subst hb; simp [getModePart, List.getLast?_concat, List.dropLast_concat]
      · simp [getModePart, List.getLast?_concat, List.dropLast_concat, hs, hx, hb]

/-- Claim C9: with an all-success oracle the entropy driver performs exactly
the resolved calls: a concrete (class, destination) pair is flattened to the
single destination index class * 4 + destination, an ALL class passes -1
through unchanged, and no expansion over the eight class/destination
combinations happens in the driver; concretely, {AC, 3} yields one call with
destination 7 and {ALL, ALL} yields one call per frame with destination -1. -/
theorem C9_entropy_flatten {ε : Type} (f : TableCall → Except ε Nat) (n : Nat)
    (ets : List enTable) (hok : ∀ c, okB (f c)) :
    processEntropy f n ets = (enCalls n ets, none) ∧
    processEntropy f 1 [⟨1, 3, 0, .Standard⟩] = ([⟨0, .Entropy, 7, .Standard⟩], none) ∧
    processEntropy f 1 [⟨-1, -1, 0, .Standard⟩] = ([⟨0, .Entropy, -1, .Standard⟩], none) := by
  refine ⟨?_, ?_, ?_⟩
  · rw [processEntropy_eq]
    exact runCalls_all_ok f _ (fun c _ => hok c)
  · rw [processEntropy_eq, runCalls_all_ok f _ (fun c _ => hok c)]
    rfl
  · rw [processEntropy_eq, runCalls_all_ok f _ (fun c _ => hok c)]
    rfl

/-- Witness for C9 with the all-success oracle. -/
theorem C9_witness :
    processEntropy allOkTC 1 [⟨0, 2, 0, .Standard⟩] = (enCalls 1 [⟨0, 2, 0, .Standard⟩], none) ∧
    processEntropy allOkTC 1 [⟨1, 3, 0, .Standard⟩] = ([⟨0, .Entropy, 7, .Standard⟩], none) ∧
    processEntropy allOkTC 1 [⟨-1, -1, 0, .Standard⟩] = ([⟨0, .Entropy, -1, .Standard⟩], none) :=
  C9_entropy_flatten allOkTC 1 [⟨0, 2, 0, .Standard⟩] (fun _ => rfl)

/-- Claim C10: the thumbnail parser succeeds on an option value exactly when
every comma-separated entry splits on the colon into exactly two fields
whose first field parses as an integer equal to 0 or 1; and the entry
2:/tmp/x in particular fails with an invalid-id error. -/
theorem C10_sthumb_entry_validity (s : List Char) :
    okB (parseSthumb s) = (splitSep ',' s).all goodThumbEntry ∧
    parseSthumb ("2:/tmp/x".data) = .error (.invalidId ['2']) :=
  ⟨parseSthumbLoop_ok (splitSep ',' s), by decide⟩

end JCheck
